import Mathlib

/-
Verification of the molecular structure file processing core.

Files are modelled at the line level: a file is a `List String`, each element
one line as Python's file iteration yields it (normally ending in a newline
character, except possibly the final line).  Python string operations used by
the source (slicing, strip, split, startswith, float parsing) are modelled by
explicit functions over the character list of the string.  File sizes are
measured in characters (the sources only ever compare a size with zero).
-/

/-- Whitespace recognized by Python str.strip and str.split. -/
def pyIsSpace (c : Char) : Bool :=
  c == ' ' || c == '\t' || c == '\n' || c == '\r' || c == '\x0b' || c == '\x0c'

/-- Boolean list-prefix test, used to model Python str.startswith. -/
def hasPre : List Char → List Char → Bool
  | [], _ => true
  | _ :: _, [] => false
  | p :: ps, c :: cs => p == c && hasPre ps cs

/-- Model of Python str.startswith on strings. -/
def strStarts (s p : String) : Bool := hasPre p.toList s.toList

/-- Boolean substring test, used to model the Python `in` operator on strings. -/
def substrAux (pat : List Char) : List Char → Bool
  | [] => pat.isEmpty
  | c :: t => hasPre pat (c :: t) || substrAux pat t

/-- Model of `pat in s` for Python strings. -/
def containsStr (s pat : String) : Bool := substrAux pat.toList s.toList

/-- Length of a line in characters (Python len). -/
def lineLen (s : String) : Nat := s.toList.length

/-- Model of the Python slice s[a:b] (character indices, clamped). -/
def pySlice (s : String) (a b : Nat) : String := ⟨(s.toList.drop a).take (b - a)⟩

/-- Model of Python str.strip(). -/
def pyStrip (s : String) : String :=
  ⟨((s.toList.dropWhile pyIsSpace).reverse.dropWhile pyIsSpace).reverse⟩

/-- True when the line's final character is a newline. -/
def strEndsNl (s : String) : Bool :=
  match s.toList.getLast? with
  | some c => c == '\n'
  | none => false

/-- Helper for splitWs: accumulates the current token (reversed). -/
def splitWsAux : List Char → List Char → List String
  | [], cur => if cur.isEmpty then [] else [⟨cur.reverse⟩]
  | c :: t, cur =>
    if pyIsSpace c then
      if cur.isEmpty then splitWsAux t [] else (⟨cur.reverse⟩ : String) :: splitWsAux t []
    else splitWsAux t (c :: cur)

/-- Model of Python str.split() with no argument: split on whitespace runs. -/
def splitWs (s : String) : List String := splitWsAux s.toList []

/-- Counts leading decimal digits, returns the count and the rest. -/
def decDigits : List Char → Nat × List Char
  | [] => (0, [])
  | c :: t =>
    if c.isDigit then
      let (n, r) := decDigits t
      (n + 1, r)
    else (0, c :: t)

/-- Accepts an optionally signed nonempty digit string (a float exponent). -/
def signedDigits (l : List Char) : Bool :=
  let body := match l with
    | c :: t => if c == '+' || c == '-' then t else c :: t
    | [] => []
  let (n, r) := decDigits body
  decide (0 < n) && r.isEmpty

/-- Accepts an optional exponent part of a float literal. -/
def expPart : List Char → Bool
  | [] => true
  | c :: r => (c == 'e' || c == 'E') && signedDigits r

/-- Accepts the unsigned numeric body of a float literal. -/
def mantissaExp (l : List Char) : Bool :=
  let (n1, r1) := decDigits l
  match r1 with
  | '.' :: r2 =>
    let (n2, r3) := decDigits r2
    decide (0 < n1 + n2) && expPart r3
  | r1' => decide (0 < n1) && expPart r1'

/-- Model of Python float(token) acceptance: optional sign, digits with an
optional decimal point and exponent, or inf/infinity/nan (case-insensitive).
Digit-group underscores are not modelled; no token in this development uses
them. -/
def isPyFloat (s : String) : Bool :=
  let l := (pyStrip s).toList
  let body := match l with
    | c :: t => if c == '+' || c == '-' then t else c :: t
    | [] => []
  let low := body.map Char.toLower
  (low == "inf".toList || low == "infinity".toList || low == "nan".toList)
    || mantissaExp body

/-- Model of Python round(q, 2) on an exact rational: round half to even. -/
def pyRound2 (q : ℚ) : ℚ :=
  let y := q * 100
  let f : ℤ := ⌊y⌋
  let r := y - (f : ℚ)
  let n : ℤ :=
    if r < 1/2 then f
    else if 1/2 < r then f + 1
    else if f % 2 = 0 then f else f + 1
  (n : ℚ) / 100

/-- True for lines whose record keyword is ATOM or HETATM. -/
def atomB (l : String) : Bool := strStarts l "ATOM" || strStarts l "HETATM"

/-- Total size of a file in characters (stands in for the byte size). -/
def fileSize (lines : List String) : Nat := (lines.map lineLen).sum

/- ------------------------------------------------------------------
   main.py: split_poses
   ------------------------------------------------------------------ -/

/-- Loop of split_poses: walks the lines with the current buffered pose and the
accumulated list of written poses. -/
def splitPosesGo : List String → List String → List (List String) → List (List String)
  | [], _, acc => acc
  | l :: ls, cur, acc =>
    if strStarts l "MODEL" then splitPosesGo ls [l] acc
    else if strStarts l "ENDMDL" then splitPosesGo ls [] (acc ++ [cur ++ [l]])
    else if cur.isEmpty then splitPosesGo ls cur acc
    else splitPosesGo ls (cur ++ [l]) acc

/-- split_poses from main.py, at the line level: each element of the result is
the content of one written pose file, in writing order. -/
def split_poses (lines : List String) : List (List String) :=
  splitPosesGo lines [] []

lemma splitPosesGo_no_endmdl (lines : List String) :
    ∀ cur acc, (∀ l ∈ lines, strStarts l "ENDMDL" = false) →
      splitPosesGo lines cur acc = acc := by
  induction lines with
  | nil => intro cur acc _; rfl
  | cons l ls ih =>
    intro cur acc h
    have hl : strStarts l "ENDMDL" = false := h l (List.mem_cons_self l ls)
    have hls : ∀ x ∈ ls, strStarts x "ENDMDL" = false := by
      intro x hx; exact h x (List.mem_cons_of_mem l hx)
    unfold splitPosesGo
    by_cases hm : strStarts l "MODEL" = true
    · simp [hm, ih _ _ hls]
    · simp [hm, hl]
      by_cases hc : cur.isEmpty
      · simp [hc, ih _ _ hls]
      · simp [hc, ih _ _ hls]

/-- C1 (counterexample): a file containing no MODEL line (hence zero
MODEL/ENDMDL pairs) but one ENDMDL line makes split_poses write one pose file
containing just that line, so the returned pose list is not empty. -/
theorem split_poses_endmdl_no_model_cex :
    (∀ l ∈ ["ENDMDL\n"], strStarts l "MODEL" = false) ∧
      split_poses ["ENDMDL\n"] = [["ENDMDL\n"]] := by
  constructor
  · decide
  · rfl

/-- C1 (amended): split_poses returns an empty pose list (and writes no pose
file) on every input containing no ENDMDL line; an ENDMDL line flushes a pose
even when no MODEL line was ever seen. -/
theorem split_poses_no_endmdl_empty (lines : List String)
    (h : ∀ l ∈ lines, strStarts l "ENDMDL" = false) :
    split_poses lines = [] :=
  splitPosesGo_no_endmdl lines [] [] h

/-- C1 (witness): the amended theorem applied to a concrete MODEL-only file. -/
theorem split_poses_no_endmdl_empty_witness :
    (∀ l ∈ ["MODEL 1\n", "ATOM      1  N   ALA A   1\n"],
        strStarts l "ENDMDL" = false) ∧
      split_poses ["MODEL 1\n", "ATOM      1  N   ALA A   1\n"] = [] :=
  ⟨by decide, split_poses_no_endmdl_empty _ (by decide)⟩

/- ------------------------------------------------------------------
   main.py: combine_protein_ligand
   ------------------------------------------------------------------ -/

/-- combine_protein_ligand from main.py at the line level: receptor lines not
starting with END, then a TER line, then ligand lines not starting with MODEL,
ENDMDL or END, then a final END line. -/
def combine_protein_ligand (prot lig : List String) : List String :=
  (prot.filter (fun l => !strStarts l "END")) ++ ["TER\n"] ++
    (lig.filter (fun l =>
      !(strStarts l "MODEL" || strStarts l "ENDMDL" || strStarts l "END"))) ++
    ["END\n"]

/-- C5 (counterexample): a receptor file that ends in an END line but contains
a TER line yields combined output with two TER lines, refuting the claim that
the output always has exactly one TER line. -/
theorem combine_two_ter_cex :
    combine_protein_ligand ["TER\n", "END\n"] ["MODEL 1\n", "ENDMDL\n"] =
        ["TER\n", "TER\n", "END\n"] ∧
      (combine_protein_ligand ["TER\n", "END\n"] ["MODEL 1\n", "ENDMDL\n"]).countP
          (fun l => strStarts l "TER") = 2 := by
  constructor
  · rfl
  · rfl

lemma filter_snoc_false (f : String → Bool) (ls : List String) (x : String)
    (hx : f x = false) : (ls ++ [x]).filter f = ls.filter f := by
  rw [List.filter_append]
  simp [List.filter, hx]

lemma filter_cons_false (f : String → Bool) (ls : List String) (x : String)
    (hx : f x = false) : (x :: ls).filter f = ls.filter f := by
  simp [List.filter, hx]

lemma countP_filter_zero (p q : String → Bool) (ls : List String)
    (h : ∀ l ∈ ls, p l = false) : (ls.filter q).countP p = 0 := by
  refine List.countP_eq_zero.mpr ?_
  intro l hl
  simp [h l (List.mem_of_mem_filter hl)]

lemma hasPre_append_left (p q l : List Char) (h : hasPre (p ++ q) l = true) :
    hasPre p l = true := by
  induction p generalizing l with
  | nil => simp [hasPre]
  | cons a ps ih =>
    cases l with
    | nil => simp [hasPre] at h
    | cons c cs =>
      simp only [List.cons_append, hasPre, Bool.and_eq_true] at h ⊢
      exact ⟨h.1, ih cs h.2⟩

lemma endmdl_starts_end (l : String) (h : strStarts l "ENDMDL" = true) :
    strStarts l "END" = true := by
  unfold strStarts at h ⊢
  have hsplit : "ENDMDL".toList = "END".toList ++ "MDL".toList := by decide
  rw [hsplit] at h
  exact hasPre_append_left _ _ _ h

/-- C5 (amended): when no receptor body line starts with TER or MODEL and no
ligand body line starts with TER, combining a receptor file ending in an END
line with a MODEL/ENDMDL-delimited ligand pose file yields exactly the stated
concatenation, with exactly one TER line, exactly one END line placed last, and
no MODEL or ENDMDL lines. -/
theorem combine_protein_ligand_props (plines body : List String)
    (hp : ∀ l ∈ plines, strStarts l "TER" = false ∧ strStarts l "MODEL" = false)
    (hb : ∀ l ∈ body, strStarts l "TER" = false) :
    combine_protein_ligand (plines ++ ["END\n"]) (("MODEL 1\n" :: body) ++ ["ENDMDL\n"]) =
        (plines.filter (fun l => !strStarts l "END")) ++ ["TER\n"] ++
          (body.filter (fun l =>
            !(strStarts l "MODEL" || strStarts l "ENDMDL" || strStarts l "END"))) ++
          ["END\n"] ∧
      (combine_protein_ligand (plines ++ ["END\n"])
            (("MODEL 1\n" :: body) ++ ["ENDMDL\n"])).countP
          (fun l => strStarts l "TER") = 1 ∧
      (combine_protein_ligand (plines ++ ["END\n"])
            (("MODEL 1\n" :: body) ++ ["ENDMDL\n"])).countP
          (fun l => strStarts l "END") = 1 ∧
      (combine_protein_ligand (plines ++ ["END\n"])
            (("MODEL 1\n" :: body) ++ ["ENDMDL\n"])).countP
          (fun l => strStarts l "MODEL") = 0 ∧
      (combine_protein_ligand (plines ++ ["END\n"])
            (("MODEL 1\n" :: body) ++ ["ENDMDL\n"])).countP
          (fun l => strStarts l "ENDMDL") = 0 ∧
      (combine_protein_ligand (plines ++ ["END\n"])
            (("MODEL 1\n" :: body) ++ ["ENDMDL\n"])).getLast? = some "END\n" := by
  have hshape :
      combine_protein_ligand (plines ++ ["END\n"]) (("MODEL 1\n" :: body) ++ ["ENDMDL\n"]) =
        (plines.filter (fun l => !strStarts l "END")) ++ ["TER\n"] ++
          (body.filter (fun l =>
            !(strStarts l "MODEL" || strStarts l "ENDMDL" || strStarts l "END"))) ++
          ["END\n"] := by
    unfold combine_protein_ligand
    rw [filter_snoc_false (fun l => !strStarts l "END") plines "END\n" (by decide),
      List.filter_append,
      filter_cons_false
        (fun l => !(strStarts l "MODEL" || strStarts l "ENDMDL" || strStarts l "END"))
        body "MODEL 1\n" (by decide),
      show List.filter
          (fun l => !(strStarts l "MODEL" || strStarts l "ENDMDL" || strStarts l "END"))
          ["ENDMDL\n"] = [] from rfl,
      List.append_nil]
  have hAend : ∀ l ∈ plines.filter (fun l => !strStarts l "END"),
      strStarts l "END" = false := by
    intro l hl
    have := List.of_mem_filter hl
    simpa using this
  have hBall : ∀ l ∈ body.filter (fun l =>
      !(strStarts l "MODEL" || strStarts l "ENDMDL" || strStarts l "END")),
      strStarts l "MODEL" = false ∧ strStarts l "ENDMDL" = false ∧
        strStarts l "END" = false := by
    intro l hl
    have := List.of_mem_filter hl
    simp only [Bool.not_eq_true', Bool.or_eq_false_iff] at this
    exact ⟨this.1.1, this.1.2, this.2⟩
  have hAem : ∀ l ∈ plines.filter (fun l => !strStarts l "END"),
      strStarts l "ENDMDL" = false := by
    intro l hl
    cases hcase : strStarts l "ENDMDL" with
    | false => rfl
    | true =>
      have h1 := hAend l hl
      rw [endmdl_starts_end l hcase] at h1
      exact Bool.noConfusion h1
  refine ⟨hshape, ?_, ?_, ?_, ?_, ?_⟩ <;> rw [hshape] <;>
    try rw [List.countP_append, List.countP_append, List.countP_append]
  · -- exactly one TER
    have hA : (plines.filter (fun l => !strStarts l "END")).countP
        (fun l => strStarts l "TER") = 0 :=
      countP_filter_zero _ _ plines (fun l hl => (hp l hl).1)
    have hB : (body.filter (fun l =>
        !(strStarts l "MODEL" || strStarts l "ENDMDL" || strStarts l "END"))).countP
        (fun l => strStarts l "TER") = 0 :=
      countP_filter_zero _ _ body hb
    rw [hA, hB]
    decide
  · -- exactly one END
    have hA : (plines.filter (fun l => !strStarts l "END")).countP
        (fun l => strStarts l "END") = 0 :=
      List.countP_eq_zero.mpr (fun l hl => by simp [hAend l hl])
    have hB : (body.filter (fun l =>
        !(strStarts l "MODEL" || strStarts l "ENDMDL" || strStarts l "END"))).countP
        (fun l => strStarts l "END") = 0 :=
      List.countP_eq_zero.mpr (fun l hl => by simp [(hBall l hl).2.2])
    rw [hA, hB]
    decide
  · -- no MODEL lines
    have hA : (plines.filter (fun l => !strStarts l "END")).countP
        (fun l => strStarts l "MODEL") = 0 :=
      countP_filter_zero _ _ plines (fun l hl => (hp l hl).2)
    have hB : (body.filter (fun l =>
        !(strStarts l "MODEL" || strStarts l "ENDMDL" || strStarts l "END"))).countP
        (fun l => strStarts l "MODEL") = 0 :=
      List.countP_eq_zero.mpr (fun l hl => by simp [(hBall l hl).1])
    rw [hA, hB]
    decide
  · -- no ENDMDL lines (an ENDMDL line also starts with END, so none survive)
    have hA : (plines.filter (fun l => !strStarts l "END")).countP
        (fun l => strStarts l "ENDMDL") = 0 :=
      List.countP_eq_zero.mpr (fun l hl => by simp [hAem l hl])
    have hB : (body.filter (fun l =>
        !(strStarts l "MODEL" || strStarts l "ENDMDL" || strStarts l "END"))).countP
        (fun l => strStarts l "ENDMDL") = 0 :=
      List.countP_eq_zero.mpr (fun l hl => by simp [(hBall l hl).2.1])
    rw [hA, hB]
    decide
  · -- last line is END
    have hre : ∀ A B : List String,
        A ++ ["TER\n"] ++ B ++ ["END\n"] = (A ++ "TER\n" :: B) ++ ["END\n"] := by
      intro A B; simp
    rw [hre]
    exact List.getLast?_concat _

/-- C5 (witness): the amended theorem applied to a concrete receptor and pose. -/
theorem combine_protein_ligand_props_witness :
    (∀ l ∈ ["ATOM      1  N   ALA A   1\n"],
        strStarts l "TER" = false ∧ strStarts l "MODEL" = false) ∧
      (combine_protein_ligand (["ATOM      1  N   ALA A   1\n"] ++ ["END\n"])
          (("MODEL 1\n" :: ["HETATM    1  C   LIG A   1\n"]) ++ ["ENDMDL\n"])).countP
        (fun l => strStarts l "TER") = 1 :=
  ⟨by decide,
    (combine_protein_ligand_props ["ATOM      1  N   ALA A   1\n"]
      ["HETATM    1  C   LIG A   1\n"] (by decide) (by decide)).2.1⟩

/- ------------------------------------------------------------------
   main.py: parse_vina_results
   ------------------------------------------------------------------ -/

/-- Result of examining one line of a docking output file: either the line
contributes no affinity, or it contributes the shown token (which parses as a
float), or extracting/parsing the token raises (err), which the source catches
by returning an empty list. -/
inductive LineRes
  | skip
  | val (s : String)
  | err
deriving DecidableEq

/-- Per-line behavior of parse_vina_results from main.py: a line containing
minimizedAffinity contributes its last whitespace token, a line containing
VINA RESULT: contributes the token at index 3; a missing token or a token that
float() rejects raises. Affinity values are represented by their token text. -/
def affLine (line : String) : LineRes :=
  if containsStr line "minimizedAffinity" then
    match (splitWs line).getLast? with
    | none => .err
    | some t => if isPyFloat t then .val t else .err
  else if containsStr line "VINA RESULT:" then
    match (splitWs line).get? 3 with
    | none => .err
    | some t => if isPyFloat t then .val t else .err
  else .skip

/-- Loop of parse_vina_results: collects values until the lines end (some acc)
or a raise occurs (none). -/
def vinaGo : List String → List String → Option (List String)
  | [], acc => some acc
  | l :: ls, acc =>
    match affLine l with
    | .skip => vinaGo ls acc
    | .val v => vinaGo ls (acc ++ [v])
    | .err => none

/-- parse_vina_results from main.py: the collected affinities truncated to the
first 9, or an empty list when any extraction raised. -/
def parse_vina_results (lines : List String) : List String :=
  match vinaGo lines [] with
  | some a => a.take 9
  | none => []

/-- Specification-side affinity list (from the spec's words): each qualifying
line contributes its value, collected in file order and truncated to the first
9, with no abort semantics. -/
def affinities_spec (lines : List String) : List String :=
  (lines.filterMap (fun l =>
    match affLine l with
    | .val v => some v
    | _ => none)).take 9

lemma vinaGo_no_err (lines : List String) :
    ∀ acc, (∀ l ∈ lines, affLine l ≠ .err) →
      vinaGo lines acc = some (acc ++ lines.filterMap (fun l =>
        match affLine l with
        | .val v => some v
        | _ => none)) := by
  induction lines with
  | nil => intro acc _; simp [vinaGo]
  | cons l ls ih =>
    intro acc h
    have hl := h l (List.mem_cons_self l ls)
    have hls : ∀ x ∈ ls, affLine x ≠ .err := fun x hx => h x (List.mem_cons_of_mem l hx)
    unfold vinaGo
    cases hcase : affLine l with
    | skip => simp [ih acc hls, List.filterMap_cons, hcase]
    | val v => simp [ih (acc ++ [v]) hls, List.filterMap_cons, hcase]
    | err => exact absurd hcase hl

/-- C6 (counterexample): on a file whose second qualifying line carries a
non-numeric token, parse_vina_results returns the empty list, not the list of
the qualifying values collected in file order (which is nonempty here), so the
claim as stated is false. -/
theorem parse_vina_results_abort_cex :
    parse_vina_results ["minimizedAffinity -7.0\n", "minimizedAffinity abc\n"] = [] ∧
      affinities_spec ["minimizedAffinity -7.0\n", "minimizedAffinity abc\n"] = ["-7.0"] ∧
      ([] : List String) ≠ ["-7.0"] := by
  refine ⟨by decide, by decide, by decide⟩

/-- C6 (amended): parse_vina_results never returns more than 9 entries, and on
files where every qualifying line's token extraction and float parse succeeds
it returns exactly the first 9 (or fewer) qualifying values in file order; when
any extraction fails the whole result is the empty list instead. -/
theorem parse_vina_results_cap_and_values (lines : List String) :
    (parse_vina_results lines).length ≤ 9 ∧
      ((∀ l ∈ lines, affLine l ≠ .err) →
        parse_vina_results lines = affinities_spec lines) := by
  constructor
  · unfold parse_vina_results
    cases h : vinaGo lines [] with
    | none => simp
    | some a => simp
  · intro h
    unfold parse_vina_results affinities_spec
    rw [vinaGo_no_err lines [] h]
    simp

/-- C6 (witness): the amended theorem applied to a concrete docking log. -/
theorem parse_vina_results_cap_and_values_witness :
    (∀ l ∈ ["REMARK header\n", "1 minimizedAffinity -7.3\n", "2 VINA RESULT:   -6.1  0.0  0.0\n"],
        affLine l ≠ LineRes.err) ∧
      parse_vina_results
          ["REMARK header\n", "1 minimizedAffinity -7.3\n", "2 VINA RESULT:   -6.1  0.0  0.0\n"] =
        affinities_spec
          ["REMARK header\n", "1 minimizedAffinity -7.3\n", "2 VINA RESULT:   -6.1  0.0  0.0\n"] :=
  ⟨by decide,
    (parse_vina_results_cap_and_values
      ["REMARK header\n", "1 minimizedAffinity -7.3\n", "2 VINA RESULT:   -6.1  0.0  0.0\n"]).2
      (by decide)⟩

/-- C9: one qualifying line whose extracted token does not parse as a float
aborts the whole scan: parse_vina_results returns the empty list, discarding
every affinity collected from earlier lines, whatever the surrounding lines
contain. -/
theorem parse_vina_results_err_aborts (pre post : List String) (bad : String)
    (hbad : affLine bad = .err) :
    parse_vina_results (pre ++ bad :: post) = [] := by
  unfold parse_vina_results
  suffices h : ∀ acc, vinaGo (pre ++ bad :: post) acc = none by rw [h]
  induction pre with
  | nil =>
    intro acc
    simp only [List.nil_append]
    unfold vinaGo
    rw [hbad]
  | cons l ls ih =>
    intro acc
    rw [List.cons_append]
    unfold vinaGo
    cases hcase : affLine l with
    | skip => exact ih _
    | val v => exact ih _
    | err => rfl

/-- C9 (witness): the abort theorem applied to a log whose first line already
contributed an affinity. -/
theorem parse_vina_results_err_aborts_witness :
    affLine "minimizedAffinity abc\n" = LineRes.err ∧
      parse_vina_results (["minimizedAffinity -7.0\n"] ++ "minimizedAffinity abc\n" :: []) = [] :=
  ⟨by decide,
    parse_vina_results_err_aborts ["minimizedAffinity -7.0\n"] [] "minimizedAffinity abc\n"
      (by decide)⟩

/- ------------------------------------------------------------------
   verify_structures.py: verify_pdb_structure / verify_pdbqt_structure
   ------------------------------------------------------------------ -/

/-- Value stored in a verification statistics dictionary. -/
inductive StatVal
  | num (q : ℚ)
  | cnt (n : Nat)
  | flag (b : Bool)
  | strs (l : List String)
deriving DecidableEq

/-- Lookup of a key in a statistics dictionary, first match wins. -/
def lookupStat : List (String × StatVal) → String → Option StatVal
  | [], _ => none
  | (k, v) :: t, key => if k == key then some v else lookupStat t key

/-- Verification result: validity flag, optional error message, statistics
dictionary and warning list (empty in the error cases, where the source
returns no warnings key). The file-not-found case is outside this
content-level model; both claims about the verifier concern existing files. -/
structure VerifyResult where
  valid : Bool
  error : Option String
  statistics : List (String × StatVal)
  warnings : List String

/-- Insert into a Python set modelled as a duplicate-free list. -/
def insertNew {α : Type} [BEq α] (x : α) (l : List α) : List α :=
  if l.contains x then l else l ++ [x]

/-- Lexicographic code-point order on character lists (Python string order). -/
def charsLe : List Char → List Char → Bool
  | [], _ => true
  | _ :: _, [] => false
  | a :: as, b :: bs =>
    if a.val < b.val then true
    else if b.val < a.val then false
    else charsLe as bs

/-- Insertion into a sorted list of strings. -/
def insertStr (s : String) : List String → List String
  | [] => [s]
  | t :: r => if charsLe s.toList t.toList then s :: t :: r else t :: insertStr s r

/-- Model of Python sorted() on a list of strings. -/
def sortStrings : List String → List String
  | [] => []
  | s :: r => insertStr s (sortStrings r)

/-- True when the three coordinate columns of the line all parse as floats
(Python sets has_coordinates only when none of the three raises). -/
def coordsOk (line : String) : Bool :=
  decide (54 ≤ lineLen line) && isPyFloat (pyStrip (pySlice line 30 38)) &&
    isPyFloat (pyStrip (pySlice line 38 46)) && isPyFloat (pyStrip (pySlice line 46 54))

/-- State of the verify_pdb_structure scanning loop. -/
structure PdbScan where
  atom_count : Nat
  chains : List String
  residues : List (String × String)
  has_coordinates : Bool

/-- One iteration of the verify_pdb_structure loop over a line. -/
def pdbScanStep (st : PdbScan) (line : String) : PdbScan :=
  if atomB line then
    let st1 := { st with atom_count := st.atom_count + 1 }
    let st2 := if coordsOk line then { st1 with has_coordinates := true } else st1
    let st3 :=
      if 22 ≤ lineLen line then
        let chain := pyStrip (pySlice line 21 22)
        if chain != "" then { st2 with chains := insertNew chain st2.chains } else st2
      else st2
    if 26 ≤ lineLen line then
      let res_num := pyStrip (pySlice line 22 26)
      let res_name := pyStrip (pySlice line 17 20)
      if res_num != "" && res_name != "" then
        { st3 with residues := insertNew (res_name, res_num) st3.residues }
      else st3
    else st3
  else st

/-- verify_pdb_structure from verify_structures.py, on the file content. -/
def verify_pdb_structure (lines : List String) : VerifyResult :=
  let fsize := fileSize lines
  if fsize = 0 then
    ⟨false, some "File is empty", [("file_size_kb", .num 0)], []⟩
  else
    let st := lines.foldl pdbScanStep ⟨0, [], [], false⟩
    if st.atom_count = 0 then
      ⟨false, some "No atoms found in PDB file",
        [("file_size_kb", .num (pyRound2 ((fsize : ℚ) / 1024)))], []⟩
    else
      let warnings :=
        (if st.has_coordinates then [] else ["No valid 3D coordinates found"]) ++
        (if st.atom_count < 100 then
          ["Very few atoms (" ++ toString st.atom_count ++ ") - structure may be incomplete"]
        else []) ++
        (if st.chains.length = 0 then ["No chain identifiers found"] else [])
      ⟨true, none,
        [("file_size_kb", .num (pyRound2 ((fsize : ℚ) / 1024))),
         ("atom_count", .cnt st.atom_count),
         ("chain_count", .cnt st.chains.length),
         ("chains", .strs (sortStrings st.chains)),
         ("residue_count", .cnt st.residues.length),
         ("has_coordinates", .flag st.has_coordinates)],
        warnings⟩

lemma pdbScanStep_atom_count (st : PdbScan) (line : String) :
    (pdbScanStep st line).atom_count =
      st.atom_count + (if atomB line then 1 else 0) := by
  unfold pdbScanStep
  by_cases h : atomB line = true
  · simp only [h, if_true]
    repeat' split
    all_goals rfl
  · simp only [h]
    simp

lemma pdbScan_atom_count (lines : List String) :
    ∀ st : PdbScan, (lines.foldl pdbScanStep st).atom_count =
      st.atom_count + lines.countP atomB := by
  induction lines with
  | nil => intro st; simp
  | cons l ls ih =>
    intro st
    rw [List.foldl_cons, ih, pdbScanStep_atom_count, List.countP_cons]
    by_cases h : atomB l = true
    · simp [h]; omega
    · simp [h]

/-- C7 (counterexample): on an existing, non-empty file with zero ATOM/HETATM
lines, verify_pdb_structure returns a statistics dictionary with no atom_count
entry at all (and valid = false), so the claim does not hold at N = 0. -/
theorem verify_pdb_no_atom_count_cex :
    fileSize ["FOO record\n"] ≠ 0 ∧
      (["FOO record\n"].countP atomB = 0) ∧
      lookupStat (verify_pdb_structure ["FOO record\n"]).statistics "atom_count" = none ∧
      (verify_pdb_structure ["FOO record\n"]).valid = false :=
  ⟨by decide, by decide, rfl, rfl⟩

/-- C7 (amended): on an existing, non-empty text file with N ≥ 1 lines starting
with ATOM or HETATM, verify_pdb_structure reports atom_count = N in its
statistics (and valid = true), whether or not the coordinate substrings of
those lines parse as floats; the length ≥ 54 hypothesis of the claim is not
even needed for the count. -/
theorem verify_pdb_atom_count_eq (lines : List String)
    (hsize : fileSize lines ≠ 0)
    (hN : 1 ≤ lines.countP atomB) :
    lookupStat (verify_pdb_structure lines).statistics "atom_count" =
        some (.cnt (lines.countP atomB)) ∧
      (verify_pdb_structure lines).valid = true := by
  unfold verify_pdb_structure
  have hc : (lines.foldl pdbScanStep ⟨0, [], [], false⟩).atom_count =
      lines.countP atomB := by
    rw [pdbScan_atom_count]; simp
  rw [if_neg hsize]
  have hnz : (lines.foldl pdbScanStep ⟨0, [], [], false⟩).atom_count ≠ 0 := by
    rw [hc]; omega
  rw [if_neg hnz]
  constructor
  · simp only [lookupStat]
    rw [if_neg (by decide), if_pos (by decide), hc]
  · rfl

/-- C7 (witness): the amended theorem applied to a file with two atom records
whose coordinate columns do not parse as floats. -/
theorem verify_pdb_atom_count_eq_witness :
    fileSize ["ATOM      1  N   ALA A   1      xxxxxxxxyyyyyyyyzzzzzzzz  1.00  0.00           N\n",
        "HETATM    2  O   HOH A   2      xxxxxxxxyyyyyyyyzzzzzzzz  1.00  0.00           O\n"] ≠ 0 ∧
      lookupStat (verify_pdb_structure
          ["ATOM      1  N   ALA A   1      xxxxxxxxyyyyyyyyzzzzzzzz  1.00  0.00           N\n",
           "HETATM    2  O   HOH A   2      xxxxxxxxyyyyyyyyzzzzzzzz  1.00  0.00           O\n"]).statistics
        "atom_count" = some (.cnt 2) :=
  ⟨by decide,
    (verify_pdb_atom_count_eq
      ["ATOM      1  N   ALA A   1      xxxxxxxxyyyyyyyyzzzzzzzz  1.00  0.00           N\n",
       "HETATM    2  O   HOH A   2      xxxxxxxxyyyyyyyyzzzzzzzz  1.00  0.00           O\n"]
      (by decide) (by decide)).1⟩

/-- State of the verify_pdbqt_structure scanning loop. -/
structure QtScan where
  atom_count : Nat
  has_charges : Bool
  has_atom_types : Bool
  has_coordinates : Bool
  root_found : Bool

/-- One iteration of the verify_pdbqt_structure loop over a line.  The ROOT
check applies to every line, after the atom-record block. -/
def qtScanStep (st : QtScan) (line : String) : QtScan :=
  let st4 :=
    if atomB line then
      let st1 := { st with atom_count := st.atom_count + 1 }
      let st2 := if coordsOk line then { st1 with has_coordinates := true } else st1
      let st3 :=
        if 70 ≤ lineLen line then
          if pyStrip (pySlice line 70 76) != "" then { st2 with has_charges := true } else st2
        else st2
      if 79 ≤ lineLen line then
        if pyStrip (pySlice line 77 79) != "" then { st3 with has_atom_types := true } else st3
      else st3
    else st
  if strStarts line "ROOT" then { st4 with root_found := true } else st4

/-- verify_pdbqt_structure from verify_structures.py, on the file content. -/
def verify_pdbqt_structure (lines : List String) (is_protein : Bool) : VerifyResult :=
  let fsize := fileSize lines
  if fsize = 0 then
    ⟨false, some "File is empty", [("file_size_kb", .num 0)], []⟩
  else
    let st := lines.foldl qtScanStep ⟨0, false, false, false, false⟩
    if st.atom_count = 0 then
      ⟨false, some "No atoms found in PDBQT file",
        [("file_size_kb", .num (pyRound2 ((fsize : ℚ) / 1024)))], []⟩
    else
      let warnings :=
        (if st.has_coordinates then [] else ["No valid 3D coordinates found"]) ++
        (if st.has_charges then []
         else ["No partial charges found - may affect docking accuracy"]) ++
        (if st.has_atom_types then [] else ["No atom types found in PDBQT format"]) ++
        (if is_protein then
          (if st.atom_count < 100 then
            ["Very few atoms (" ++ toString st.atom_count ++ ") for a protein"]
          else []) ++
          (if 50000 < st.atom_count then
            ["Very large protein (" ++ toString st.atom_count ++ " atoms) - docking may be slow"]
          else [])
        else
          (if st.root_found then []
           else ["No ROOT found - ligand may not be properly formatted"]) ++
          (if st.atom_count < 5 then
            ["Very small ligand (" ++ toString st.atom_count ++ " atoms)"]
          else []) ++
          (if 150 < st.atom_count then
            ["Very large ligand (" ++ toString st.atom_count ++ " atoms) - consider fragmentation"]
          else []))
      ⟨true, none,
        [("file_size_kb", .num (pyRound2 ((fsize : ℚ) / 1024))),
         ("atom_count", .cnt st.atom_count),
         ("has_coordinates", .flag st.has_coordinates),
         ("has_partial_charges", .flag st.has_charges),
         ("has_atom_types", .flag st.has_atom_types),
         ("has_root", .flag st.root_found)],
        warnings⟩

lemma qtScanStep_atom_count (st : QtScan) (line : String) :
    (qtScanStep st line).atom_count =
      st.atom_count + (if atomB line then 1 else 0) := by
  unfold qtScanStep
  by_cases h : atomB line = true
  · simp only [h, if_true]
    repeat' split
    all_goals rfl
  · simp only [h]
    repeat' split
    all_goals simp

lemma qtScan_atom_count (lines : List String) :
    ∀ st : QtScan, (lines.foldl qtScanStep st).atom_count =
      st.atom_count + lines.countP atomB := by
  induction lines with
  | nil => intro st; simp
  | cons l ls ih =>
    intro st
    rw [List.foldl_cons, ih, qtScanStep_atom_count, List.countP_cons]
    by_cases h : atomB l = true
    · simp [h]; omega
    · simp [h]

lemma qtScanStep_root (st : QtScan) (line : String) :
    (qtScanStep st line).root_found = (st.root_found || strStarts line "ROOT") := by
  unfold qtScanStep
  by_cases hr : strStarts line "ROOT" = true
  · rw [if_pos hr, hr]
    simp
  · have hr2 : strStarts line "ROOT" = false := by
      revert hr; cases strStarts line "ROOT" <;> simp
    rw [if_neg hr, hr2, Bool.or_false]
    repeat' split
    all_goals rfl

lemma qtScan_root (lines : List String) :
    ∀ st : QtScan, (lines.foldl qtScanStep st).root_found =
      (st.root_found || lines.any (fun l => strStarts l "ROOT")) := by
  induction lines with
  | nil => intro st; simp
  | cons l ls ih =>
    intro st
    rw [List.foldl_cons, ih, qtScanStep_root, List.any_cons]
    by_cases h : strStarts l "ROOT" = true <;> simp [h]

lemma hasPre_length (p s : List Char) (h : hasPre p s = true) :
    p.length ≤ s.length := by
  induction p generalizing s with
  | nil => simp
  | cons a ps ih =>
    cases s with
    | nil => simp [hasPre] at h
    | cons c cs =>
      simp only [hasPre, Bool.and_eq_true] at h
      simpa using ih cs h.2

lemma fileSize_pos_of_atom (lines : List String)
    (h : 0 < lines.countP atomB) : fileSize lines ≠ 0 := by
  obtain ⟨l, hl, hatom⟩ := List.countP_pos_iff.mp h
  have hlen : 4 ≤ lineLen l := by
    unfold atomB strStarts at hatom
    rcases Bool.or_eq_true_iff.mp hatom with h1 | h1
    · have h2 := hasPre_length _ _ h1
      have h3 : "ATOM".toList.length = 4 := by decide
      unfold lineLen
      omega
    · have h2 := hasPre_length _ _ h1
      have h3 : "HETATM".toList.length = 6 := by decide
      unfold lineLen
      omega
  have hmem : lineLen l ∈ lines.map lineLen := List.mem_map_of_mem lineLen hl
  have hle : lineLen l ≤ (lines.map lineLen).sum :=
    List.single_le_sum (fun x _ => Nat.zero_le x) _ hmem
  unfold fileSize
  omega

lemma mem_flag_warn {w x : String} {b : Bool}
    (h : w ∈ (if b = true then ([] : List String) else [x])) : w = x := by
  cases b with
  | true => simp at h
  | false => simpa using h

/-- C2 (counterexample): a ligand PDBQT file with exactly 5 atom records and no
ROOT line verifies as valid, but its warning list contains no very-small-ligand
warning (that warning requires an atom count strictly below 5); only the
no-ROOT warning of the two claimed warnings is present. -/
theorem verify_pdbqt_five_atoms_cex :
    (List.replicate 5 "ATOM\n").countP atomB = 5 ∧
      (∀ l ∈ List.replicate 5 "ATOM\n", strStarts l "ROOT" = false) ∧
      (verify_pdbqt_structure (List.replicate 5 "ATOM\n") false).valid = true ∧
      "No ROOT found - ligand may not be properly formatted" ∈
        (verify_pdbqt_structure (List.replicate 5 "ATOM\n") false).warnings ∧
      (∀ w ∈ (verify_pdbqt_structure (List.replicate 5 "ATOM\n") false).warnings,
        containsStr w "Very small ligand" = false) := by
  refine ⟨by decide, by decide, by decide, by decide, by decide⟩

/-- C2 (amended): ligand-mode verification of a PDBQT file with exactly 5
ATOM/HETATM lines and no line starting with ROOT returns valid = true with a
warning list that contains the no-ROOT warning but no very-small-ligand warning
(the latter requires an atom count strictly below 5). -/
theorem verify_pdbqt_five_atoms_no_root (lines : List String)
    (h5 : lines.countP atomB = 5)
    (hroot : ∀ l ∈ lines, strStarts l "ROOT" = false) :
    (verify_pdbqt_structure lines false).valid = true ∧
      "No ROOT found - ligand may not be properly formatted" ∈
        (verify_pdbqt_structure lines false).warnings ∧
      ∀ w ∈ (verify_pdbqt_structure lines false).warnings,
        containsStr w "Very small ligand" = false := by
  have hsize : fileSize lines ≠ 0 := fileSize_pos_of_atom lines (by omega)
  have hc : (lines.foldl qtScanStep ⟨0, false, false, false, false⟩).atom_count = 5 := by
    rw [qtScan_atom_count]; simpa using h5
  have hr : (lines.foldl qtScanStep ⟨0, false, false, false, false⟩).root_found = false := by
    rw [qtScan_root]
    simp only [Bool.false_or]
    exact List.any_eq_false.mpr (fun l hl => by simp [hroot l hl])
  unfold verify_pdbqt_structure
  rw [if_neg hsize, if_neg (by rw [hc]; omega)]
  refine ⟨rfl, ?_, ?_⟩
  · simp only [hc, hr]
    simp
  · intro w hw
    simp only [hc, hr] at hw
    rw [if_neg Bool.false_ne_true, if_neg Bool.false_ne_true,
      if_neg (by omega : ¬5 < 5), if_neg (by omega : ¬150 < 5),
      List.append_nil, List.append_nil] at hw
    rcases List.mem_append.mp hw with habc | hroot
    case inr => rw [List.mem_singleton.mp hroot]; decide
    case inl =>
      rcases List.mem_append.mp habc with hab | h3
      case inr => rw [mem_flag_warn h3]; decide
      case inl =>
        rcases List.mem_append.mp hab with h1 | h2
        · rw [mem_flag_warn h1]; decide
        · rw [mem_flag_warn h2]; decide

/-- C2 (witness): the amended theorem applied to a concrete 5-atom ligand
file without a ROOT line. -/
theorem verify_pdbqt_five_atoms_no_root_witness :
    ((List.replicate 5 "HETATM\n").countP atomB = 5) ∧
      "No ROOT found - ligand may not be properly formatted" ∈
        (verify_pdbqt_structure (List.replicate 5 "HETATM\n") false).warnings :=
  ⟨by decide,
    (verify_pdbqt_five_atoms_no_root (List.replicate 5 "HETATM\n")
      (by decide) (by decide)).2.1⟩

/- ------------------------------------------------------------------
   verify_structures.py: estimate_molecular_weight
   ------------------------------------------------------------------ -/

/-- Lookup in the atomic weight table, first match wins. -/
def lookupWeight : List (String × ℚ) → String → Option ℚ
  | [], _ => none
  | (k, v) :: t, key => if k == key then some v else lookupWeight t key

/-- The atomic_weights table of estimate_molecular_weight, including the
two-letter entries Cl and Br. -/
def atomic_weights : List (String × ℚ) :=
  [("H", 1.008), ("C", 12.011), ("N", 14.007), ("O", 15.999),
   ("F", 18.998), ("P", 30.974), ("S", 32.065), ("Cl", 35.453),
   ("Br", 79.904), ("I", 126.904)]

/-- Contribution of one line to the molecular weight sum: the first character
of the stripped atom-type field, upper-cased, is looked up in the table.  An
empty stripped atom-type raises IndexError at atom_type[0] (none), which the
source's except turns into an overall None result. -/
def mwLine (line : String) : Option ℚ :=
  if atomB line then
    if 79 ≤ lineLen line then
      match (pyStrip (pySlice line 77 79)).toList with
      | [] => none
      | c :: _ =>
        match lookupWeight atomic_weights (String.mk [c.toUpper]) with
        | some w => some w
        | none => some 0
    else some 0
  else some 0

/-- Total weight accumulated over the lines; none when any line raised. -/
def mwFold (lines : List String) : Option ℚ :=
  lines.foldl (fun acc l =>
    match acc, mwLine l with
    | some a, some w => some (a + w)
    | _, _ => none) (some 0)

/-- estimate_molecular_weight from verify_structures.py: the rounded total, or
none when the total is not positive or a line raised. -/
def estimate_molecular_weight (lines : List String) : Option ℚ :=
  match mwFold lines with
  | none => none
  | some t => if 0 < t then some (pyRound2 t) else none

lemma mwFold_snoc (ls : List String) (l : String) :
    mwFold (ls ++ [l]) =
      match mwFold ls, mwLine l with
      | some a, some w => some (a + w)
      | _, _ => none := by
  unfold mwFold
  rw [List.foldl_append]
  rfl

/-- C10: estimate_molecular_weight matches only the first character of the
atom-type field, so the two-letter table entries Cl and Br are unreachable: an
atom line whose atom type is Cl raises the running sum by carbon's weight
12.011 (via the C entry), and one whose atom type is Br leaves it unchanged
(B is in no entry). -/
theorem estimate_mw_cl_br (ls : List String) (l : String)
    (hatom : atomB l = true) (hlen : 79 ≤ lineLen l) :
    (pyStrip (pySlice l 77 79) = "Cl" →
      mwFold (ls ++ [l]) = (mwFold ls).map (fun a => a + (12.011 : ℚ))) ∧
    (pyStrip (pySlice l 77 79) = "Br" → mwFold (ls ++ [l]) = mwFold ls) := by
  constructor
  · intro hCl
    have hml : mwLine l = some (12.011 : ℚ) := by
      unfold mwLine
      rw [if_pos hatom, if_pos hlen, hCl]
      rfl
    rw [mwFold_snoc, hml]
    cases mwFold ls with
    | none => rfl
    | some a => rfl
  · intro hBr
    have hml : mwLine l = some (0 : ℚ) := by
      unfold mwLine
      rw [if_pos hatom, if_pos hlen, hBr]
      rfl
    rw [mwFold_snoc, hml]
    cases mwFold ls with
    | none => rfl
    | some a => simp

/-- C10 (witness): the theorem applied to concrete 79-character atom lines
with atom types Cl and Br. -/
theorem estimate_mw_cl_br_witness :
    pyStrip (pySlice ("ATOM" ++ String.mk (List.replicate 73 ' ') ++ "Cl") 77 79) = "Cl" ∧
      mwFold ([] ++ ["ATOM" ++ String.mk (List.replicate 73 ' ') ++ "Cl"]) =
        (mwFold []).map (fun a => a + (12.011 : ℚ)) ∧
      mwFold ([] ++ ["ATOM" ++ String.mk (List.replicate 73 ' ') ++ "Br"]) = mwFold [] :=
  ⟨by decide,
    (estimate_mw_cl_br [] ("ATOM" ++ String.mk (List.replicate 73 ' ') ++ "Cl")
      (by decide) (by decide)).1 (by decide),
    (estimate_mw_cl_br [] ("ATOM" ++ String.mk (List.replicate 73 ' ') ++ "Br")
      (by decide) (by decide)).2 (by decide)⟩

/- ------------------------------------------------------------------
   protein_prep.py: clean_protein_structure_text_based
   ------------------------------------------------------------------ -/

/-- The standard_residues set of the fallback cleaner. -/
def standard_residues : List String :=
  ["ALA", "ARG", "ASN", "ASP", "CYS", "GLN", "GLU", "GLY", "HIS", "ILE",
   "LEU", "LYS", "MET", "PHE", "PRO", "SER", "THR", "TRP", "TYR", "VAL",
   "SEC", "PYL", "ASX", "GLX", "UNK"]

/-- The water_residues set of the fallback cleaner. -/
def water_residues : List String := ["HOH", "WAT", "H2O", "TIP", "TIP3", "SOL"]

/-- The chain rejection test of the fallback cleaner: reject only when a
non-empty chain filter is set, the record's chain id is non-empty, and they
differ (Python truthiness of keep_chain and chain_id). -/
def chainRejects (keep_chain : Option String) (chain_id : String) : Bool :=
  match keep_chain with
  | none => false
  | some kc => kc != "" && chain_id != "" && chain_id != kc

/-- The inline atom filter of clean_protein_structure_text_based (the
SelectionPredicate of the spec): chain check, then water check, then
heteroatom check, in source order. -/
def fallbackAccept (keep_chain : Option String) (remove_water remove_hetero : Bool)
    (is_hetatm : Bool) (chain_id res_name : String) : Bool :=
  if chainRejects keep_chain chain_id then false
  else if remove_water && water_residues.contains res_name then false
  else if remove_hetero && (is_hetatm || !(standard_residues.contains res_name)) then false
  else true

/-- Classification of one input line by the fallback cleaner: a kept atom
record, a passed-through structural line, or a dropped line. -/
inductive LClass
  | atomKeep
  | passKeep
  | drop
deriving DecidableEq

/-- The per-line decision of clean_protein_structure_text_based. -/
def lineClass (keep_chain : Option String) (remove_water remove_hetero : Bool)
    (line : String) : LClass :=
  if atomB line then
    if lineLen line < 26 then .drop
    else
      if fallbackAccept keep_chain remove_water remove_hetero
          (strStarts line "HETATM")
          (if 21 < lineLen line then pyStrip (pySlice line 21 22) else "")
          (if 19 < lineLen line then pyStrip (pySlice line 17 20) else "") then .atomKeep
      else .drop
  else if strStarts line "TER" || strStarts line "END" then .passKeep
  else if strStarts line "MODEL" || strStarts line "ENDMDL" then .passKeep
  else if strStarts line "HEADER" || strStarts line "TITLE" || strStarts line "COMPND" then
    .passKeep
  else .drop

/-- The retained lines of the fallback cleaner, in input order. -/
def cleanedOf (keep_chain : Option String) (remove_water remove_hetero : Bool)
    (lines : List String) : List String :=
  lines.filter (fun l => lineClass keep_chain remove_water remove_hetero l != .drop)

/-- The atom_count accumulated by the fallback cleaner. -/
def atomCountOf (keep_chain : Option String) (remove_water remove_hetero : Bool)
    (lines : List String) : Nat :=
  lines.countP (fun l => lineClass keep_chain remove_water remove_hetero l == .atomKeep)

/-- Writing of the retained lines: a terminal END line is appended when no
retained line starts with END.  The written text is the concatenation of the
retained lines followed by the appended text, so when the final retained line
does not end in a newline the appended END glues onto it. -/
def writeEnd (cleaned : List String) : List String :=
  if cleaned.any (fun l => strStarts l "END") then cleaned
  else
    match cleaned.getLast? with
    | none => ["END\n"]
    | some last =>
      if strEndsNl last then cleaned ++ ["END\n"]
      else cleaned.dropLast ++ [last ++ "END\n"]

/-- clean_protein_structure_text_based from protein_prep.py, on the file
content: the error when no atom record is retained, else the written lines. -/
def clean_protein_structure_text_based (keep_chain : Option String)
    (remove_water remove_hetero : Bool) (lines : List String) :
    Except String (List String) :=
  if atomCountOf keep_chain remove_water remove_hetero lines = 0 then
    .error "No valid protein atoms found after cleaning"
  else .ok (writeEnd (cleanedOf keep_chain remove_water remove_hetero lines))

lemma toList_append (a b : String) : (a ++ b).toList = a.toList ++ b.toList := rfl

lemma mem_of_getLast (c : List String) (x : String) (h : c.getLast? = some x) :
    x ∈ c := by
  induction c with
  | nil => simp at h
  | cons a t ih =>
    cases t with
    | nil =>
      simp only [List.getLast?_singleton, Option.some.injEq] at h
      simp [h]
    | cons b t2 =>
      rw [List.getLast?_cons_cons] at h
      exact List.mem_cons_of_mem a (ih h)

lemma dropLast_last (c : List String) (x : String) (h : c.getLast? = some x) :
    c = c.dropLast ++ [x] := by
  induction c with
  | nil => simp at h
  | cons a t ih =>
    cases t with
    | nil =>
      simp only [List.getLast?_singleton, Option.some.injEq] at h
      simp [h]
    | cons b t2 =>
      rw [List.getLast?_cons_cons] at h
      have := ih h
      calc a :: b :: t2 = a :: (b :: t2) := rfl
        _ = a :: ((b :: t2).dropLast ++ [x]) := by rw [← this]
        _ = (a :: b :: t2).dropLast ++ [x] := by simp [List.dropLast_cons₂]

lemma writeEnd_filter_atomB_of_nl (c : List String)
    (hnl : ∀ l ∈ c, strEndsNl l = true) :
    (writeEnd c).filter atomB = c.filter atomB := by
  unfold writeEnd
  split
  · rfl
  · cases hlast : c.getLast? with
    | none =>
      cases c with
      | nil => rfl
      | cons a t => rw [List.getLast?_eq_none_iff] at hlast; exact absurd hlast (by simp)
    | some last =>
      have hEnd := hnl last (mem_of_getLast c last hlast)
      show List.filter atomB
          (if strEndsNl last = true then c ++ ["END\n"]
           else c.dropLast ++ [last ++ "END\n"]) = List.filter atomB c
      rw [hEnd, if_pos rfl, List.filter_append]
      simp [atomB, strStarts, hasPre]

/-- C3 (counterexample): with no chain filter and both removal flags off, an
ATOM line shorter than 26 characters is still dropped, so the output's atom
lines differ from the input's atom lines. -/
theorem clean_short_atom_dropped_cex :
    clean_protein_structure_text_based none false false
        ["ATOM      1  N   ALA A   1\n", "ATOM 2\n"] =
      .ok ["ATOM      1  N   ALA A   1\n", "END\n"] ∧
      strStarts "ATOM 2\n" "ATOM" = true ∧
      ["ATOM      1  N   ALA A   1\n", "END\n"].filter atomB ≠
        ["ATOM      1  N   ALA A   1\n", "ATOM 2\n"].filter atomB := by
  refine ⟨rfl, by decide, by decide⟩

/-- C3 (amended): with keep_chain unset and both removal flags off, fallback
cleaning acts as the identity on atom records of length at least 26 on
newline-terminated input: the ATOM/HETATM lines of the output equal the
ATOM/HETATM lines of length >= 26 of the input, in content and order; shorter
atom records are dropped. -/
theorem clean_identity_on_atoms (lines out : List String)
    (hnl : ∀ l ∈ lines, strEndsNl l = true)
    (hok : clean_protein_structure_text_based none false false lines = .ok out) :
    out.filter atomB =
      lines.filter (fun l => atomB l && decide (26 ≤ lineLen l)) := by
  unfold clean_protein_structure_text_based at hok
  by_cases hz : atomCountOf none false false lines = 0
  · rw [if_pos hz] at hok; exact absurd hok (by simp)
  · rw [if_neg hz] at hok
    have hout : out = writeEnd (cleanedOf none false false lines) := by
      injection hok with h; exact h.symm
    have hnlc : ∀ l ∈ cleanedOf none false false lines, strEndsNl l = true :=
      fun l hl => hnl l (List.mem_of_mem_filter hl)
    rw [hout, writeEnd_filter_atomB_of_nl _ hnlc]
    unfold cleanedOf
    rw [List.filter_filter]
    refine List.filter_congr ?_
    intro a _
    by_cases hA : atomB a = true
    · by_cases hlen : 26 ≤ lineLen a
      · have hcls : lineClass none false false a = .atomKeep := by
          unfold lineClass
          rw [if_pos hA, if_neg (by omega)]
          have hacc : ∀ h c r, fallbackAccept none false false h c r = true :=
            fun _ _ _ => rfl
          simp [hacc]
        simp [hA, hcls, hlen]
      · have hcls : lineClass none false false a = .drop := by
          unfold lineClass
          rw [if_pos hA, if_pos (by omega)]
        simp [hA, hcls, hlen]
    · have hA2 : atomB a = false := by revert hA; cases atomB a <;> simp
      simp [hA2]

/-- C3 (witness): the amended theorem applied to a one-record file. -/
theorem clean_identity_on_atoms_witness :
    (∀ l ∈ ["ATOM      1  N   ALA A   1\n"], strEndsNl l = true) ∧
      ["ATOM      1  N   ALA A   1\n", "END\n"].filter atomB =
        ["ATOM      1  N   ALA A   1\n"].filter
          (fun l => atomB l && decide (26 ≤ lineLen l)) :=
  ⟨by decide,
    clean_identity_on_atoms ["ATOM      1  N   ALA A   1\n"]
      ["ATOM      1  N   ALA A   1\n", "END\n"] (by decide) rfl⟩

lemma hasPre_append_right (p : List Char) :
    ∀ a b, hasPre p a = true → hasPre p (a ++ b) = true := by
  induction p with
  | nil => intro a b _; rfl
  | cons x ps ih =>
    intro a b h
    cases a with
    | nil => simp [hasPre] at h
    | cons c cs =>
      simp only [List.cons_append, hasPre, Bool.and_eq_true] at h ⊢
      exact ⟨h.1, ih cs b h.2⟩

lemma hasPre_append_len (p : List Char) :
    ∀ a b, p.length ≤ a.length → hasPre p (a ++ b) = hasPre p a := by
  induction p with
  | nil => intro a b _; rfl
  | cons x ps ih =>
    intro a b hlen
    cases a with
    | nil => simp at hlen
    | cons c cs =>
      simp only [List.cons_append, hasPre, List.append_eq]
      rw [ih cs b (by simpa using hlen)]

lemma prefix_compat (u : List Char) :
    ∀ p q, hasPre p u = true → hasPre q u = true →
      hasPre p q = true ∨ hasPre q p = true := by
  induction u with
  | nil =>
    intro p q hp _
    cases p with
    | nil => exact Or.inl rfl
    | cons _ _ => simp [hasPre] at hp
  | cons c cs ih =>
    intro p q hp hq
    cases p with
    | nil => exact Or.inl rfl
    | cons a ps =>
      cases q with
      | nil => exact Or.inr rfl
      | cons b qs =>
        simp only [hasPre, Bool.and_eq_true] at hp hq
        have hab : (a == b) = true := by
          have h1 : a = c := by simpa using hp.1
          have h2 : b = c := by simpa using hq.1
          simp [h1, h2]
        rcases ih ps qs hp.2 hq.2 with h | h
        · left; simp only [hasPre, Bool.and_eq_true]; exact ⟨hab, h⟩
        · right; simp only [hasPre, Bool.and_eq_true]
          exact ⟨by simpa using (by simpa using hab : a = b).symm, h⟩

lemma strStarts_append_of (l s p : String) (h : strStarts l p = true) :
    strStarts (l ++ s) p = true := by
  unfold strStarts at h ⊢
  rw [toList_append]
  exact hasPre_append_right _ _ _ h

lemma strStarts_append_len (l s p : String) (h : lineLen p ≤ lineLen l) :
    strStarts (l ++ s) p = strStarts l p := by
  unfold strStarts
  rw [toList_append]
  exact hasPre_append_len _ _ _ h

lemma lineLen_append (l s : String) : lineLen (l ++ s) = lineLen l + lineLen s := by
  unfold lineLen
  rw [toList_append, List.length_append]

lemma drop_append_le {α : Type} (a : Nat) :
    ∀ (u v : List α), a ≤ u.length → (u ++ v).drop a = u.drop a ++ v := by
  induction a with
  | zero => intro u v _; simp
  | succ n ih =>
    intro u v h
    cases u with
    | nil => simp at h
    | cons x xs =>
      simp only [List.cons_append, List.drop_succ_cons]
      exact ih xs v (by simpa using h)

lemma take_append_le {α : Type} (a : Nat) :
    ∀ (u v : List α), a ≤ u.length → (u ++ v).take a = u.take a := by
  induction a with
  | zero => intro u v _; simp
  | succ n ih =>
    intro u v h
    cases u with
    | nil => simp at h
    | cons x xs =>
      simp only [List.cons_append, List.take_succ_cons]
      rw [ih xs v (by simpa using h)]

lemma pySlice_append (l s : String) (a b : Nat) (hb : b ≤ lineLen l) :
    pySlice (l ++ s) a b = pySlice l a b := by
  unfold pySlice
  rw [toList_append]
  by_cases ha : a ≤ l.toList.length
  · rw [drop_append_le a _ _ ha, take_append_le]
    rw [List.length_drop]
    unfold lineLen at hb
    omega
  · have hz : b - a = 0 := by unfold lineLen at hb; omega
    rw [hz]
    simp

lemma not_atomB_append (l s K : String) (hK : strStarts l K = true)
    (h1 : hasPre "ATOM".toList K.toList = false)
    (h2 : hasPre K.toList "ATOM".toList = false)
    (h3 : hasPre "HETATM".toList K.toList = false)
    (h4 : hasPre K.toList "HETATM".toList = false) :
    atomB (l ++ s) = false := by
  have hKls : strStarts (l ++ s) K = true := strStarts_append_of l s K hK
  unfold atomB
  cases hA : strStarts (l ++ s) "ATOM" with
  | true =>
    exfalso
    unfold strStarts at hA hKls
    rcases prefix_compat _ _ _ hA hKls with h | h
    · rw [h1] at h; exact Bool.noConfusion h
    · rw [h2] at h; exact Bool.noConfusion h
  | false =>
    cases hH : strStarts (l ++ s) "HETATM" with
    | true =>
      exfalso
      unfold strStarts at hH hKls
      rcases prefix_compat _ _ _ hH hKls with h | h
      · rw [h3] at h; exact Bool.noConfusion h
      · rw [h4] at h; exact Bool.noConfusion h
    | false => rfl

lemma pass_of_keyword (kc : Option String) (rwF rhF : Bool) (x : String)
    (hax : atomB x = false)
    (hkw : (strStarts x "TER" || strStarts x "END") = true ∨
      (strStarts x "MODEL" || strStarts x "ENDMDL") = true ∨
      (strStarts x "HEADER" || strStarts x "TITLE" || strStarts x "COMPND") = true) :
    lineClass kc rwF rhF x = .passKeep := by
  unfold lineClass
  rw [if_neg (by simp [hax])]
  rcases hkw with h | h | h
  · rw [if_pos h]
  · by_cases h1 : (strStarts x "TER" || strStarts x "END") = true
    · rw [if_pos h1]
    · rw [if_neg h1, if_pos h]
  · by_cases h1 : (strStarts x "TER" || strStarts x "END") = true
    · rw [if_pos h1]
    · by_cases h2 : (strStarts x "MODEL" || strStarts x "ENDMDL") = true
      · rw [if_neg h1, if_pos h2]
      · rw [if_neg h1, if_neg h2, if_pos h]

lemma keyword_of_pass (kc : Option String) (rwF rhF : Bool) (x : String)
    (hax : atomB x = false) (h : lineClass kc rwF rhF x ≠ .drop) :
    (strStarts x "TER" || strStarts x "END") = true ∨
      (strStarts x "MODEL" || strStarts x "ENDMDL") = true ∨
      (strStarts x "HEADER" || strStarts x "TITLE" || strStarts x "COMPND") = true := by
  unfold lineClass at h
  rw [if_neg (by simp [hax])] at h
  by_cases h1 : (strStarts x "TER" || strStarts x "END") = true
  · exact Or.inl h1
  by_cases h2 : (strStarts x "MODEL" || strStarts x "ENDMDL") = true
  · exact Or.inr (Or.inl h2)
  by_cases h3 : (strStarts x "HEADER" || strStarts x "TITLE" || strStarts x "COMPND") = true
  · exact Or.inr (Or.inr h3)
  · rw [if_neg h1, if_neg h2, if_neg h3] at h
    exact absurd rfl h

lemma lineClass_append (kc : Option String) (rwF rhF : Bool) (l s : String)
    (h : lineClass kc rwF rhF l ≠ .drop) :
    lineClass kc rwF rhF (l ++ s) = lineClass kc rwF rhF l ∧
      atomB (l ++ s) = atomB l := by
  by_cases hA : atomB l = true
  · have h26 : ¬ lineLen l < 26 := by
      intro hlt
      apply h
      unfold lineClass
      rw [if_pos hA, if_pos hlt]
    have hlen26 : 26 ≤ lineLen l := by omega
    have hAapp : atomB (l ++ s) = true := by
      unfold atomB at hA ⊢
      rcases Bool.or_eq_true_iff.mp hA with h1 | h1
      · rw [strStarts_append_of l s _ h1]; rfl
      · rw [strStarts_append_of l s _ h1]; simp
    have hlenapp : ¬ lineLen (l ++ s) < 26 := by
      rw [lineLen_append]; omega
    have hacc : fallbackAccept kc rwF rhF (strStarts l "HETATM")
        (if 21 < lineLen l then pyStrip (pySlice l 21 22) else "")
        (if 19 < lineLen l then pyStrip (pySlice l 17 20) else "") = true := by
      by_cases hx : fallbackAccept kc rwF rhF (strStarts l "HETATM")
          (if 21 < lineLen l then pyStrip (pySlice l 21 22) else "")
          (if 19 < lineLen l then pyStrip (pySlice l 17 20) else "") = true
      · exact hx
      · exfalso
        apply h
        unfold lineClass
        rw [if_pos hA, if_neg h26, if_neg hx]
    have hcls : lineClass kc rwF rhF l = .atomKeep := by
      unfold lineClass
      rw [if_pos hA, if_neg h26, if_pos hacc]
    have hargs : strStarts (l ++ s) "HETATM" = strStarts l "HETATM" ∧
        pySlice (l ++ s) 21 22 = pySlice l 21 22 ∧
        pySlice (l ++ s) 17 20 = pySlice l 17 20 := by
      refine ⟨strStarts_append_len l s "HETATM" ?_, ?_, ?_⟩
      · have h6 : lineLen "HETATM" = 6 := by decide
        omega
      · exact pySlice_append l s 21 22 (by omega)
      · exact pySlice_append l s 17 20 (by omega)
    have hg21 : 21 < lineLen (l ++ s) := by rw [lineLen_append]; omega
    have hg19 : 19 < lineLen (l ++ s) := by rw [lineLen_append]; omega
    have haccapp : fallbackAccept kc rwF rhF (strStarts (l ++ s) "HETATM")
        (if 21 < lineLen (l ++ s) then pyStrip (pySlice (l ++ s) 21 22) else "")
        (if 19 < lineLen (l ++ s) then pyStrip (pySlice (l ++ s) 17 20) else "") = true := by
      rw [hargs.1, if_pos hg21, if_pos hg19, hargs.2.1, hargs.2.2]
      rw [if_pos (by omega : 21 < lineLen l), if_pos (by omega : 19 < lineLen l)] at hacc
      exact hacc
    have hclsapp : lineClass kc rwF rhF (l ++ s) = .atomKeep := by
      unfold lineClass
      rw [if_pos hAapp, if_neg hlenapp, if_pos haccapp]
    rw [hclsapp, hcls, hAapp, hA]
    exact ⟨rfl, rfl⟩
  · have hax : atomB l = false := by revert hA; cases atomB l <;> simp
    have hkw := keyword_of_pass kc rwF rhF l hax h
    have hnA : atomB (l ++ s) = false := by
      rcases hkw with hg | hg | hg
      · rcases Bool.or_eq_true_iff.mp hg with hK | hK
        · exact not_atomB_append l s "TER" hK (by decide) (by decide) (by decide) (by decide)
        · exact not_atomB_append l s "END" hK (by decide) (by decide) (by decide) (by decide)
      · rcases Bool.or_eq_true_iff.mp hg with hK | hK
        · exact not_atomB_append l s "MODEL" hK (by decide) (by decide) (by decide) (by decide)
        · exact not_atomB_append l s "ENDMDL" hK (by decide) (by decide) (by decide) (by decide)
      · rcases Bool.or_eq_true_iff.mp hg with hg2 | hK
        · rcases Bool.or_eq_true_iff.mp hg2 with hK | hK
          · exact not_atomB_append l s "HEADER" hK (by decide) (by decide) (by decide) (by decide)
          · exact not_atomB_append l s "TITLE" hK (by decide) (by decide) (by decide) (by decide)
        · exact not_atomB_append l s "COMPND" hK (by decide) (by decide) (by decide) (by decide)
    have hkwapp : (strStarts (l ++ s) "TER" || strStarts (l ++ s) "END") = true ∨
        (strStarts (l ++ s) "MODEL" || strStarts (l ++ s) "ENDMDL") = true ∨
        (strStarts (l ++ s) "HEADER" || strStarts (l ++ s) "TITLE" ||
          strStarts (l ++ s) "COMPND") = true := by
      rcases hkw with hg | hg | hg
      · rcases Bool.or_eq_true_iff.mp hg with hK | hK
        · exact Or.inl (by rw [strStarts_append_of l s _ hK]; rfl)
        · exact Or.inl (by rw [strStarts_append_of l s _ hK]; simp)
      · rcases Bool.or_eq_true_iff.mp hg with hK | hK
        · exact Or.inr (Or.inl (by rw [strStarts_append_of l s _ hK]; rfl))
        · exact Or.inr (Or.inl (by rw [strStarts_append_of l s _ hK]; simp))
      · rcases Bool.or_eq_true_iff.mp hg with hg2 | hK
        · rcases Bool.or_eq_true_iff.mp hg2 with hK | hK
          · exact Or.inr (Or.inr (by rw [strStarts_append_of l s _ hK]; rfl))
          · exact Or.inr (Or.inr (by rw [strStarts_append_of l s _ hK]; simp))
        · exact Or.inr (Or.inr (by rw [strStarts_append_of l s _ hK]; simp))
    rw [pass_of_keyword kc rwF rhF (l ++ s) hnA hkwapp,
      pass_of_keyword kc rwF rhF l hax hkw, hnA, hax]
    exact ⟨rfl, rfl⟩

lemma lineClass_end_line (kc : Option String) (rwF rhF : Bool) :
    lineClass kc rwF rhF "END\n" = .passKeep :=
  pass_of_keyword kc rwF rhF "END\n" (by decide) (Or.inl (by decide))

lemma writeEnd_counts (kc : Option String) (rwF rhF : Bool) (c : List String)
    (hc : ∀ l ∈ c, lineClass kc rwF rhF l ≠ .drop) :
    (writeEnd c).countP atomB = c.countP atomB ∧
      (writeEnd c).countP (fun l => lineClass kc rwF rhF l == .atomKeep) =
        c.countP (fun l => lineClass kc rwF rhF l == .atomKeep) ∧
      (∀ l ∈ writeEnd c, lineClass kc rwF rhF l ≠ .drop) := by
  by_cases hany : c.any (fun l => strStarts l "END") = true
  · unfold writeEnd
    rw [if_pos hany]
    exact ⟨rfl, rfl, hc⟩
  · have hanyf : c.any (fun l => strStarts l "END") = false := by
      revert hany; cases c.any (fun l => strStarts l "END") <;> simp
    cases hlast : c.getLast? with
    | none =>
      have hcnil : c = [] := List.getLast?_eq_none_iff.mp hlast
      subst hcnil
      have hwe : writeEnd [] = ["END\n"] := rfl
      rw [hwe]
      refine ⟨by decide, ?_, ?_⟩
      · simp [List.countP_cons, lineClass_end_line kc rwF rhF]
      · intro l hl
        rw [List.mem_singleton.mp hl, lineClass_end_line kc rwF rhF]
        simp
    | some last =>
      have hlastmem := mem_of_getLast c last hlast
      have hlastc := hc last hlastmem
      have hwe : writeEnd c = if strEndsNl last = true then c ++ ["END\n"]
          else c.dropLast ++ [last ++ "END\n"] := by
        unfold writeEnd
        rw [hanyf, if_neg Bool.false_ne_true, hlast]
      rw [hwe]
      by_cases hnl : strEndsNl last = true
      · -- final retained line ends with a newline: END becomes its own line
        rw [if_pos hnl]
        refine ⟨?_, ?_, ?_⟩
        · rw [List.countP_append]
          simp [List.countP_cons]
          decide
        · rw [List.countP_append]
          simp [List.countP_cons, lineClass_end_line kc rwF rhF]
        · intro l hl
          rcases List.mem_append.mp hl with h1 | h1
          · exact hc l h1
          · rw [List.mem_singleton.mp h1, lineClass_end_line kc rwF rhF]
            simp
      · -- final retained line has no newline: END glues onto it
        rw [if_neg hnl]
        obtain ⟨hLC, hAB⟩ := lineClass_append kc rwF rhF last "END\n" hlastc
        refine ⟨?_, ?_, ?_⟩
        · rw [List.countP_append]
          conv_rhs => rw [dropLast_last c last hlast]
          rw [List.countP_append]
          simp [List.countP_cons, hAB]
        · rw [List.countP_append]
          conv_rhs => rw [dropLast_last c last hlast]
          rw [List.countP_append]
          simp [List.countP_cons, hLC]
        · intro l hl
          rcases List.mem_append.mp hl with h1 | h1
          · exact hc l (List.dropLast_subset c h1)
          · rw [List.mem_singleton.mp h1, hLC]
            exact hlastc

/-- C8: the fallback cleaner is idempotent on atom count: whenever cleaning
succeeds, cleaning its own output with the same parameters succeeds as well
and the output retains the same number of ATOM/HETATM lines. -/
theorem clean_text_idempotent_count (kc : Option String) (rwF rhF : Bool)
    (lines out : List String)
    (hok : clean_protein_structure_text_based kc rwF rhF lines = .ok out) :
    ∃ out2, clean_protein_structure_text_based kc rwF rhF out = .ok out2 ∧
      out2.countP atomB = out.countP atomB := by
  unfold clean_protein_structure_text_based at hok
  by_cases hz : atomCountOf kc rwF rhF lines = 0
  · rw [if_pos hz] at hok; exact absurd hok (by simp)
  rw [if_neg hz] at hok
  have hout : out = writeEnd (cleanedOf kc rwF rhF lines) := by
    injection hok with h; exact h.symm
  have hcnd : ∀ l ∈ cleanedOf kc rwF rhF lines, lineClass kc rwF rhF l ≠ .drop := by
    intro l hl
    have := List.of_mem_filter hl
    simpa using this
  obtain ⟨hW1, hW2, hW3⟩ := writeEnd_counts kc rwF rhF (cleanedOf kc rwF rhF lines) hcnd
  have htrans : (cleanedOf kc rwF rhF lines).countP
      (fun l => lineClass kc rwF rhF l == .atomKeep) = atomCountOf kc rwF rhF lines := by
    unfold cleanedOf atomCountOf
    rw [List.countP_filter]
    refine List.countP_congr ?_
    intro a _
    cases hcl : lineClass kc rwF rhF a <;> simp [hcl]
  have hocnt : atomCountOf kc rwF rhF out = atomCountOf kc rwF rhF lines := by
    unfold atomCountOf
    rw [hout]
    rw [hW2, htrans]
    rfl
  have hz2 : atomCountOf kc rwF rhF out ≠ 0 := by rw [hocnt]; exact hz
  have hond : ∀ l ∈ out, lineClass kc rwF rhF l ≠ .drop := by
    intro l hl
    rw [hout] at hl
    exact hW3 l hl
  have hfo : cleanedOf kc rwF rhF out = out := by
    unfold cleanedOf
    refine List.filter_eq_self.mpr ?_
    intro a ha
    simpa using hond a ha
  refine ⟨writeEnd (cleanedOf kc rwF rhF out), ?_, ?_⟩
  · unfold clean_protein_structure_text_based
    rw [if_neg hz2]
  · rw [hfo]
    exact (writeEnd_counts kc rwF rhF out hond).1

/-- C8 (witness): the idempotence theorem applied to a one-record chain-A file
with all filters on. -/
theorem clean_text_idempotent_count_witness :
    clean_protein_structure_text_based (some "A") true true
        ["ATOM      1  N   ALA A   1\n"] =
      Except.ok ["ATOM      1  N   ALA A   1\n", "END\n"] ∧
      ∃ out2, clean_protein_structure_text_based (some "A") true true
            ["ATOM      1  N   ALA A   1\n", "END\n"] = Except.ok out2 ∧
          out2.countP atomB = ["ATOM      1  N   ALA A   1\n", "END\n"].countP atomB :=
  ⟨rfl,
    clean_text_idempotent_count (some "A") true true ["ATOM      1  N   ALA A   1\n"]
      ["ATOM      1  N   ALA A   1\n", "END\n"] rfl⟩

/- ------------------------------------------------------------------
   protein_prep.py: clean_protein_structure selector classes
   ------------------------------------------------------------------ -/

/-- Modelled from the spec: the structured cleaner's parsing collaborator
(the hierarchy parser) is not part of src/; per the spec's data model an atom
record carries a water flag derived from residue-name membership in the fixed
water set and a heteroatom flag derived from the record keyword.  The residue
hetero-field consulted by the selector classes (residue.id[0] in the source)
is water for water residues, het for other heteroatom records, std
otherwise. -/
inductive Hetfield
  | std
  | water
  | het
deriving DecidableEq

/-- Hetero-field of a parsed residue, from the spec's data model. -/
def hetfieldOf (is_hetatm : Bool) (res_name : String) : Hetfield :=
  if water_residues.contains res_name then .water
  else if is_hetatm then .het
  else .std

/-- Python truthiness of the keep_chain argument. -/
def kcTruthy : Option String → Bool
  | none => false
  | some s => s != ""

/-- The chain id compared against by the structured selectors. -/
def kcVal : Option String → String
  | none => ""
  | some s => s

/-- The selector dispatch of clean_protein_structure: ChainAndProteinSelect
when a chain is kept and heteroatoms are removed; ChainSelect when only a
chain is kept (water optionally removed); ProteinOnlySelect when only
heteroatoms are removed; else NoWaterSelect or the accept-all Select. -/
def structuredAccept (keep_chain : Option String) (remove_water remove_hetero : Bool)
    (hf : Hetfield) (chain_id : String) : Bool :=
  if kcTruthy keep_chain && remove_hetero then
    (chain_id == kcVal keep_chain) && (hf == .std)
  else if kcTruthy keep_chain then
    (chain_id == kcVal keep_chain) && (!remove_water || (hf != .water))
  else if remove_hetero then hf == .std
  else if remove_water then hf != .water
  else true

lemma water_not_standard (res : String) (h : water_residues.contains res = true) :
    standard_residues.contains res = false := by
  have h2 : res ∈ water_residues := by
    simpa [List.elem_iff] using h
  unfold water_residues at h2
  simp only [List.mem_cons, List.not_mem_nil, or_false] at h2
  rcases h2 with rfl | rfl | rfl | rfl | rfl | rfl <;> decide

/-- C4 (counterexample): the two cleaning paths do not apply the same
selection decision: a record with an empty chain id is kept by the fallback
filter (an empty chain id is never rejected) but rejected by the structured
chain selector (its chain id differs from the kept chain). -/
theorem structured_fallback_empty_chain_cex :
    fallbackAccept (some "A") false false false "" "ALA" = true ∧
      structuredAccept (some "A") false false (hetfieldOf false "ALA") "" = false := by
  exact ⟨rfl, rfl⟩

/-- C4 (amended): the structured selectors and the fallback inline filter
agree on every atom record whose chain id is non-empty (whenever a chain
filter is set) and whose residue name is in the standard or water set whenever
the record keyword is ATOM.  Outside these conditions they diverge: records
with an empty chain id are kept only by the fallback filter, and ATOM records
with non-standard, non-water residue names are removed only by the fallback
filter under remove_hetero. -/
theorem structured_fallback_parity (kc : Option String) (rwF rhF : Bool)
    (isHet : Bool) (chain res : String)
    (hchain : kcTruthy kc = true → chain ≠ "")
    (hres : isHet = false →
      (standard_residues.contains res || water_residues.contains res) = true) :
    fallbackAccept kc rwF rhF isHet chain res =
      structuredAccept kc rwF rhF (hetfieldOf isHet res) chain := by
  have hcr : chainRejects kc chain = (kcTruthy kc && !(chain == kcVal kc)) := by
    cases kc with
    | none => rfl
    | some s =>
      show (s != "" && chain != "" && chain != s) = ((s != "") && !(chain == s))
      by_cases hs : (s != "") = true
      · have hch : chain ≠ "" := hchain (by simpa [kcTruthy] using hs)
        have hch2 : (chain != "") = true := by simpa using hch
        rw [hs, hch2]
        simp [bne]
      · have hs2 : (s != "") = false := by revert hs; cases (s != "") <;> simp
        rw [hs2]
        simp
  have hdisj : water_residues.contains res = true →
      standard_residues.contains res = false := water_not_standard res
  unfold fallbackAccept structuredAccept hetfieldOf
  rw [hcr]
  revert hdisj hres
  generalize water_residues.contains res = w
  generalize standard_residues.contains res = sv
  generalize kcTruthy kc = t
  generalize (chain == kcVal kc) = e
  revert rwF rhF isHet w sv t e
  decide

/-- C4 (witness): the parity theorem applied to a chain-A ALA ATOM record with
both removal flags on. -/
theorem structured_fallback_parity_witness :
    (kcTruthy (some "A") = true → ("A" : String) ≠ "") ∧
      fallbackAccept (some "A") true true false "A" "ALA" =
        structuredAccept (some "A") true true (hetfieldOf false "ALA") "A" :=
  ⟨by decide,
    structured_fallback_parity (some "A") true true false "A" "ALA"
      (by decide) (by decide)⟩
